import Mathlib

set_option maxHeartbeats 1000000

namespace EnzGraph

/-- A normalized record: association list from internal column names to raw string
values. A later binding shadows an earlier one, as in a Python dict built by
successive assignment, hence the reversed lookup. -/
abbrev Row := List (String × String)

def Row.get (r : Row) (k : String) : String :=
  ((r.reverse.find? (fun p => p.1 == k)).map Prod.snd).getD ""

/-- The whitespace class of Python's str.strip and the regex class \s (ASCII part). -/
def pyWs (c : Char) : Bool :=
  c == ' ' || c == '\t' || c == '\n' || c == '\r' || c == '\x0b' || c == '\x0c'

def stripChars (l : List Char) : List Char :=
  ((l.dropWhile pyWs).reverse.dropWhile pyWs).reverse

def strip (s : String) : String :=
  String.mk (stripChars s.data)

def toLowerStr (s : String) : String :=
  String.mk (s.data.map Char.toLower)

def toUpperStr (s : String) : String :=
  String.mk (s.data.map Char.toUpper)

/-- Delimiter class of re.split in parse_semilist: semicolon, comma or whitespace. -/
def isDelim (c : Char) : Bool :=
  c == ';' || c == ',' || pyWs c

/-- Maximal runs of non-delimiter characters, dropping empty tokens, which is what
re.split followed by the truthiness filter produces in parse_semilist. -/
def tokenizeAux (acc : List Char) : List Char → List String
  | [] => if acc.isEmpty then [] else [String.mk acc.reverse]
  | c :: rest =>
    if isDelim c then
      if acc.isEmpty then tokenizeAux [] rest
      else String.mk acc.reverse :: tokenizeAux [] rest
    else tokenizeAux (c :: acc) rest

def parse_semilist (x : String) : List String :=
  tokenizeAux [] (stripChars x.data)

def substrInAux (pat : List Char) : List Char → Bool
  | [] => pat.isEmpty
  | c :: rest => pat.isPrefixOf (c :: rest) || substrInAux pat rest

def substrIn (pat s : String) : Bool :=
  substrInAux pat.data s.data

def has_secreted_eco269 (subcell : String) : Bool :=
  substrIn "Secreted" subcell && substrIn "ECO:0000269" subcell

def is_reviewed (row : Row) : Bool :=
  toLowerStr (strip (Row.get row "reviewed")) == "reviewed"

/-- All matches of the pattern EC=([\d\.]+): at each position where the literal
characters EC= are followed by a non-empty maximal run of digits and dots, the
run is captured. Inside such a match no further match can begin, so the
position-by-position scan returns exactly the non-overlapping findall list. -/
def findECs : List Char → List String
  | [] => []
  | 'E' :: rest =>
    (match rest with
     | 'C' :: '=' :: rest2 =>
       (fun run =>
         if run.isEmpty then findECs rest
         else String.mk run :: findECs rest)
       (rest2.takeWhile (fun c => c.isDigit || c == '.'))
     | _ => findECs rest)
  | _ :: rest => findECs rest

/-- Whether the pattern RHEA:\d+ matches anywhere. -/
def hasRhea : List Char → Bool
  | [] => false
  | 'R' :: rest =>
    (match rest with
     | 'H' :: 'E' :: 'A' :: ':' :: c :: _ => c.isDigit || hasRhea rest
     | _ => hasRhea rest)
  | _ :: rest => hasRhea rest

/-- All matches of the pattern ECO:\d{7}: the literal ECO: followed by exactly
seven digits (further digits may follow; the match keeps the first seven). -/
def findEcos : List Char → List String
  | [] => []
  | 'E' :: rest =>
    (match rest with
     | 'C' :: 'O' :: ':' :: rest2 =>
       (fun ds =>
         if ds.length == 7 && ds.all Char.isDigit then
           String.mk ('E' :: 'C' :: 'O' :: ':' :: ds) :: findEcos rest
         else findEcos rest)
       (rest2.take 7)
     | _ => findEcos rest)
  | _ :: rest => findEcos rest

def eco269Here (b : List Char) : Bool :=
  (findEcos b).contains "ECO:0000269"

/-- Split on every occurrence of the literal separator CATALYTIC ACTIVITY:,
as Python str.split does (non-overlapping, left to right). -/
def splitCat (acc : List Char) : List Char → List (List Char)
  | [] => [acc.reverse]
  | 'C' :: 'A' :: 'T' :: 'A' :: 'L' :: 'Y' :: 'T' :: 'I' :: 'C' :: ' ' :: 'A' :: 'C' :: 'T' :: 'I' :: 'V' :: 'I' :: 'T' :: 'Y' :: ':' :: rest =>
      acc.reverse :: splitCat [] rest
  | c :: rest => splitCat (c :: acc) rest

structure EvFlags where
  rhea : Bool
  eco269 : Bool
  eco_any269 : Bool
deriving DecidableEq

def alistGet {α : Type} (d : α) (l : List (String × α)) (k : String) : α :=
  ((l.find? (fun p => p.1 == k)).map Prod.snd).getD d

def catGet (out : List (String × EvFlags)) (ec : String) : EvFlags :=
  alistGet ⟨false, false, false⟩ out ec

/-- Update of one target entry by one block of the catalytic text: the per-EC
rhea and eco269 flags absorb this block's markers when the block mentions that
EC, and eco_any269 is set whenever the specific code appears in the block. -/
def blockStep (b : List Char) (ec : String) (f : EvFlags) : EvFlags :=
  (fun ecsB rheaHere ecoHere =>
    (fun f1 => if ecoHere then { f1 with eco_any269 := true } else f1)
    (if ecsB.contains ec then
      { rhea := f.rhea || rheaHere, eco269 := f.eco269 || ecoHere,
        eco_any269 := f.eco_any269 }
     else f))
  (findECs b) (hasRhea b) (eco269Here b)

/-- One iteration of the block loop of scan_catalytic over all target entries. -/
def scanBlock (out : List (String × EvFlags)) (b : List Char) : List (String × EvFlags) :=
  out.map (fun p => (p.1, blockStep b p.1 p.2))

def scan_catalytic (catalytic : String) (target_ecs : List String) : List (String × EvFlags) :=
  (fun init =>
    if catalytic.data.isEmpty then init
    else (splitCat [] catalytic.data).foldl scanBlock init)
  (target_ecs.map (fun ec => (ec, (⟨false, false, false⟩ : EvFlags))))

def high_conf_for_ec (row : Row) (ec : String) : Bool :=
  (fun cat =>
    (cat.eco269 && cat.rhea) || (is_reviewed row && (cat.eco269 || cat.rhea)))
  (catGet (scan_catalytic (Row.get row "catalytic") [ec]) ec)

/-- Seed multiset for one EC, as accumulated by derive_expected_pfams: each record
whose EC list contains this target EC and which passes the high-confidence seed
predicate contributes each of its distinct family ids once. -/
def seedsFor (rows : List Row) (target_ecs : List String) (ec : String) : List String :=
  rows.foldl (fun acc r =>
    if (parse_semilist (Row.get r "ec_list")).contains ec && target_ecs.contains ec
        && high_conf_for_ec r ec
    then acc ++ (parse_semilist (Row.get r "pfam_list")).dedup
    else acc) []

/-- Learned expected-family map: for every target EC with a non-empty seed list,
keep the family ids whose seed count meets the absolute threshold and whose
fraction of the total seed contributions meets the fractional threshold (the
total of all Counter values is the length of the seed list). -/
def derive_expected_pfams (rows : List Row) (target_ecs : List String)
    (min_abs : Int) (min_frac : Rat) : List (String × List String) :=
  target_ecs.map (fun ec =>
    (fun lst =>
      if lst.isEmpty then (ec, ([] : List String))
      else
        (ec, lst.dedup.filter (fun pf =>
          decide (min_abs ≤ (lst.count pf : Int))
            && decide (min_frac ≤ ((lst.count pf : Rat) / (lst.length : Rat))))))
    (seedsFor rows target_ecs ec))

def expGet (pfam_expected : List (String × List String)) (ec : String) : List String :=
  alistGet [] pfam_expected ec

/-- Uppercase and strip non-alphanumeric characters, as in norm_token. -/
def norm_token (s : String) : String :=
  String.mk ((toUpperStr s).data.filter (fun c => ('A' ≤ c && c ≤ 'Z') || c.isDigit))

/-- Split on the pattern [;,]\s*: a semicolon or comma together with the
whitespace run following it acts as one separator occurrence. The Bool argument
records whether the scanner is inside the whitespace tail of a separator. -/
def splitCazyAux (inSep : Bool) (acc : List Char) : List Char → List (List Char)
  | [] => [acc.reverse]
  | c :: rest =>
    if inSep && pyWs c then splitCazyAux true acc rest
    else if c == ';' || c == ',' then acc.reverse :: splitCazyAux true [] rest
    else splitCazyAux false (c :: acc) rest

/-- Normalized CAZy tokens of a record: split the xref_cazy string on [;,]\s*,
drop tokens that are empty after stripping, and normalize the rest. -/
def cazyToks (row : Row) : List String :=
  (((splitCazyAux false [] (Row.get row "xref_cazy").data).map String.mk).filter
    (fun t => !(stripChars t.data).isEmpty)).map norm_token

def esther_proxy (row : Row) : Bool :=
  (fun iprs pfams =>
    iprs.contains "IPR029058" || pfams.contains "PF01083" || pfams.contains "PF12740")
  ((parse_semilist (Row.get row "interpro_list")).dedup)
  ((parse_semilist (Row.get row "pfam_list")).dedup)

def cazy_esther_ok (row : Row) (use_esther_proxy : Bool) : Bool :=
  (fun toks =>
    (fun has_poly_cazy has_esther0 =>
      (fun has_esther => has_poly_cazy || has_esther)
      (if use_esther_proxy then has_esther0 || esther_proxy row else has_esther0))
    (toks.any (fun t => "GH".data.isPrefixOf t.data || "PL".data.isPrefixOf t.data
      || "CE".data.isPrefixOf t.data || "CBM".data.isPrefixOf t.data))
    (!(stripChars (Row.get row "xref_esther").data).isEmpty))
  (cazyToks row)

/-- Intersection of a record's EC set with the target set, the filter applied at
the top of assign_tier. -/
def interEcs (row : Row) (target_ecs : List String) : List String :=
  ((parse_semilist (Row.get row "ec_list")).dedup).filter
    (fun ec => target_ecs.contains ec)

/-- The loop over intersecting ECs in assign_tier. First component: pfam_ok as
set by the loop body (with early exit on a family match); second component:
has_any_expected_defined. -/
def pfamLoop (pfams : List String) (pfam_expected : List (String × List String)) :
    List String → Bool × Bool
  | [] => (false, false)
  | tec :: rest =>
    (fun expected =>
      if expected.isEmpty then pfamLoop pfams pfam_expected rest
      else if pfams.any (fun pf => expected.contains pf) then (true, true)
      else ((pfamLoop pfams pfam_expected rest).1, true))
    (expGet pfam_expected tec)

/-- The pfam_ok value computed by assign_tier lines 187-204: the loop over
intersecting ECs, then the CAZy/ESTHER fallback, then the lenient default when
no intersecting EC has a non-empty expected set. -/
def pfam_ok_of (row : Row) (target_ecs : List String)
    (pfam_expected : List (String × List String)) (use_esther_proxy : Bool) : Bool :=
  (fun pl =>
    (fun p1 => if !pl.2 then true else p1)
    (if !pl.1 && cazy_esther_ok row use_esther_proxy then true else pl.1))
  (pfamLoop ((parse_semilist (Row.get row "pfam_list")).dedup) pfam_expected
    (interEcs row target_ecs))

def has_rhea_target (catalytic : String) (target_ecs : List String) : Bool :=
  target_ecs.any (fun ec => (catGet (scan_catalytic catalytic target_ecs) ec).rhea)

def has_eco269_target (catalytic : String) (target_ecs : List String) : Bool :=
  target_ecs.any (fun ec => (catGet (scan_catalytic catalytic target_ecs) ec).eco269)

def eco_any269_target (catalytic : String) (target_ecs : List String) : Bool :=
  target_ecs.any (fun ec => (catGet (scan_catalytic catalytic target_ecs) ec).eco_any269)

/-- The tier classifier assign_tier: skip on empty EC intersection, otherwise
gold, silver or bronze from pfam_ok and the aggregated catalytic, structural,
secretion and review evidence. -/
def assign_tier (row : Row) (target_ecs : List String)
    (pfam_expected : List (String × List String)) (use_esther_proxy : Bool) : String :=
  if (interEcs row target_ecs).isEmpty then "skip"
  else
    (fun catalytic pfam_ok =>
      (fun has_rhea has_eco eco_any has_pdb secreted_exp rev =>
        (fun is_gold =>
          (fun is_silver =>
            if is_gold then "gold" else if is_silver then "silver" else "bronze")
          (pfam_ok && !is_gold
            && (has_rhea || has_pdb || eco_any || secreted_exp || rev)))
        (pfam_ok && has_eco && (has_rhea || has_pdb || rev)))
      (has_rhea_target catalytic target_ecs)
      (has_eco269_target catalytic target_ecs)
      (eco_any269_target catalytic target_ecs)
      (!((parse_semilist (Row.get row "pdb_list")).dedup).isEmpty)
      (has_secreted_eco269 (Row.get row "subcellular"))
      (is_reviewed row))
    (Row.get row "catalytic")
    (pfam_ok_of row target_ecs pfam_expected use_esther_proxy)

/-- Header-name to internal-name mapping of the scoring script. -/
def HEADER_MAP : List (String × String) :=
  [("Entry", "acc"), ("Entry Name", "entry"), ("Protein names", "protein"),
   ("Gene Names (primary)", "gene"), ("Gene Names", "gene"),
   ("Organism", "organism"), ("Organism (ID)", "taxid"), ("Length", "length"),
   ("EC number", "ec_list"), ("Pfam", "pfam_list"), ("InterPro", "interpro_list"),
   ("PDB", "pdb_list"), ("Gene Ontology (molecular function)", "go_mf"),
   ("Gene Ontology (biological process)", "go_bp"),
   ("Subcellular location [CC]", "subcellular"), ("Catalytic activity", "catalytic"),
   ("reviewed", "reviewed"), ("Reviewed", "reviewed"),
   ("xref_cazy", "xref_cazy"), ("xref_esther", "xref_esther")]

def normalize_header (h : String) : String :=
  (fun h2 => if toLowerStr h2 == "ntry" then "Entry" else h2) (strip h)

def headerToInternal (h : String) : String :=
  ((HEADER_MAP.find? (fun p => p.1 == h)).map Prod.snd).getD h

/-- Reader of the input table: every cell is keyed by the internal name of its
(normalized) column header; unknown headers pass through unchanged. No column
is required and no validation is performed. -/
def read_with_header (fieldnames : List String) (data : List (List String)) : List Row :=
  data.map (fun vals =>
    (fieldnames.zip vals).map (fun kv => (headerToInternal (normalize_header kv.1), kv.2)))

/-- The record-processing pipeline of main: read and normalize the table, learn
the expected-family map, then emit (accession, tier) for every non-skipped row. -/
def scoreTable (fieldnames : List String) (data : List (List String))
    (target_ecs : List String) (min_abs : Int) (min_frac : Rat)
    (use_esther_proxy : Bool) : List (String × String) :=
  (fun rows =>
    (fun pe =>
      rows.filterMap (fun r =>
        (fun t => if t == "skip" then none else some (Row.get r "acc", t))
        (assign_tier r target_ecs pe use_esther_proxy)))
    (derive_expected_pfams rows target_ecs min_abs min_frac))
  (read_with_header fieldnames data)

end EnzGraph


namespace EnzGraph

theorem alistGet_map_self {α : Type} (d : α) (g : String → α) :
    ∀ (ts : List String) (ec : String), ec ∈ ts →
      alistGet d (ts.map (fun e => (e, g e))) ec = g ec := by
  intro ts
  induction ts with
  | nil => intro ec h; cases h
  | cons e rest ih =>
    intro ec h
    by_cases he : e = ec
    · subst he
      simp [alistGet]
    · rcases List.mem_cons.mp h with h1 | h2
      · exact absurd h1.symm he
      · have step : List.find? (fun p => p.1 == ec) ((e, g e) :: rest.map (fun x => (x, g x)))
            = List.find? (fun p => p.1 == ec) (rest.map (fun x => (x, g x))) :=
          List.find?_cons_of_neg _ (by simp [he])
        simp only [alistGet, List.map_cons, step]
        exact ih ec h2

theorem foldl_scanBlock_map (blocks : List (List Char)) :
    ∀ (ts : List String) (g : String → EvFlags),
      blocks.foldl scanBlock (ts.map (fun ec => (ec, g ec))) =
        ts.map (fun ec => (ec, blocks.foldl (fun f b => blockStep b ec f) (g ec))) := by
  induction blocks with
  | nil => intro ts g; simp
  | cons b bs ih =>
    intro ts g
    simp only [List.foldl_cons]
    have h1 : scanBlock (ts.map (fun ec => (ec, g ec))) b =
        ts.map (fun ec => (ec, blockStep b ec (g ec))) := by
      simp [scanBlock, List.map_map, Function.comp]
    rw [h1, ih ts (fun ec => blockStep b ec (g ec))]

theorem scan_catalytic_eq_map (c : String) (ts : List String) :
    scan_catalytic c ts = ts.map (fun ec => (ec,
      if c.data.isEmpty then (⟨false, false, false⟩ : EvFlags)
      else (splitCat [] c.data).foldl (fun f b => blockStep b ec f) ⟨false, false, false⟩)) := by
  cases h : c.data.isEmpty
  · simp only [scan_catalytic, h, Bool.false_eq_true, if_false]
    exact foldl_scanBlock_map _ ts (fun _ => ⟨false, false, false⟩)
  · simp [scan_catalytic, h]

theorem catGet_scan (c : String) (ts : List String) (ec : String) (h : ec ∈ ts) :
    catGet (scan_catalytic c ts) ec =
      if c.data.isEmpty then ⟨false, false, false⟩
      else (splitCat [] c.data).foldl (fun f b => blockStep b ec f) ⟨false, false, false⟩ := by
  rw [scan_catalytic_eq_map]
  exact alistGet_map_self _ _ ts ec h

theorem blockStep_eco_any (b : List Char) (ec : String) (f : EvFlags) :
    (blockStep b ec f).eco_any269 = (f.eco_any269 || eco269Here b) := by
  unfold blockStep
  by_cases h1 : ec ∈ findECs b <;> cases h2 : eco269Here b <;> simp [h1, h2]

theorem blockStep_eco269 (b : List Char) (ec : String) (f : EvFlags) :
    (blockStep b ec f).eco269 = (f.eco269 || (decide (ec ∈ findECs b) && eco269Here b)) := by
  unfold blockStep
  by_cases h1 : ec ∈ findECs b <;> cases h2 : eco269Here b <;> simp [h1, h2]

theorem foldl_blockStep_eco_any (ec : String) :
    ∀ (bs : List (List Char)) (z : EvFlags),
      (bs.foldl (fun f b => blockStep b ec f) z).eco_any269 =
        (z.eco_any269 || bs.any (fun b => eco269Here b)) := by
  intro bs
  induction bs with
  | nil => intro z; simp
  | cons b rest ih =>
    intro z
    simp only [List.foldl_cons, List.any_cons]
    rw [ih, blockStep_eco_any, Bool.or_assoc]

theorem foldl_blockStep_eco269_src (ec : String) :
    ∀ (bs : List (List Char)) (z : EvFlags),
      (bs.foldl (fun f b => blockStep b ec f) z).eco269 = true →
        z.eco269 = true ∨ bs.any (fun b => eco269Here b) = true := by
  intro bs
  induction bs with
  | nil => intro z h; exact Or.inl h
  | cons b rest ih =>
    intro z h
    simp only [List.foldl_cons] at h
    rcases ih (blockStep b ec z) h with h1 | h2
    · rw [blockStep_eco269, Bool.or_eq_true] at h1
      rcases h1 with h3 | h4
      · exact Or.inl h3
      · refine Or.inr ?_
        simp only [List.any_cons, Bool.or_eq_true]
        rw [Bool.and_eq_true] at h4
        exact Or.inl h4.2
    · refine Or.inr ?_
      simp only [List.any_cons, Bool.or_eq_true]
      exact Or.inr h2

/-- C10: the document-wide eco_any269 flag computed by scan_catalytic has the
same value for every target EC; if the specific-evidence flag eco269 holds for
some target EC then eco_any269 holds for every target EC; consequently in the
classifier the aggregated has_eco_specific flag implies the has_eco_any flag. -/
theorem eco_any_uniform (c : String) (ts : List String) :
    (∀ e1, e1 ∈ ts → ∀ e2, e2 ∈ ts →
      (catGet (scan_catalytic c ts) e1).eco_any269 =
        (catGet (scan_catalytic c ts) e2).eco_any269)
    ∧ (∀ e1, e1 ∈ ts → ∀ e2, e2 ∈ ts →
      (catGet (scan_catalytic c ts) e1).eco269 = true →
      (catGet (scan_catalytic c ts) e2).eco_any269 = true)
    ∧ (has_eco269_target c ts = true → eco_any269_target c ts = true) := by
  have hany : ∀ e, e ∈ ts → (catGet (scan_catalytic c ts) e).eco_any269 =
      (if c.data.isEmpty then false
       else (splitCat [] c.data).any (fun b => eco269Here b)) := by
    intro e he
    rw [catGet_scan c ts e he]
    cases h : c.data.isEmpty
    · simp only [h, Bool.false_eq_true, if_false]
      rw [foldl_blockStep_eco_any]
      simp
    · simp [h]
  have heco : ∀ e, e ∈ ts → (catGet (scan_catalytic c ts) e).eco269 = true →
      (if c.data.isEmpty then false
       else (splitCat [] c.data).any (fun b => eco269Here b)) = true := by
    intro e he h
    rw [catGet_scan c ts e he] at h
    cases hc : c.data.isEmpty
    · simp only [hc, Bool.false_eq_true, if_false] at h ⊢
      rcases foldl_blockStep_eco269_src e _ _ h with h1 | h2
      · cases h1
      · exact h2
    · rw [hc] at h
      simp at h
  refine ⟨?_, ?_, ?_⟩
  · intro e1 h1 e2 h2
    rw [hany e1 h1, hany e2 h2]
  · intro e1 h1 e2 h2 h
    rw [hany e2 h2]
    exact heco e1 h1 h
  · intro h
    rcases List.any_eq_true.mp h with ⟨ec, hmem, hec⟩
    apply List.any_eq_true.mpr
    refine ⟨ec, hmem, ?_⟩
    rw [hany ec hmem]
    exact heco ec hmem hec

theorem eco_any_uniform_witness :
    (catGet (scan_catalytic "CATALYTIC ACTIVITY: EC=1.1.1.1; ECO:0000269"
      ["1.1.1.1", "2.2.2.2"]) "2.2.2.2").eco_any269 = true :=
  (eco_any_uniform "CATALYTIC ACTIVITY: EC=1.1.1.1; ECO:0000269"
    ["1.1.1.1", "2.2.2.2"]).2.1 "1.1.1.1" (by decide) "2.2.2.2" (by decide) (by decide)

theorem blockStep_inert (b : List Char) (ec : String) (f : EvFlags)
    (h1 : findECs b = []) (h2 : eco269Here b = false) : blockStep b ec f = f := by
  unfold blockStep
  rw [h1, h2]
  simp [List.contains]

/-- C8: scan_catalytic is total and conservative: for every catalytic text it
returns one entry per target EC (in order); when no block of the text yields an
EC match or the specific evidence code, every flag of every target is false;
and for the absent (empty) text every flag of every target is false. -/
theorem scan_catalytic_total_allfalse (c : String) (ts : List String) :
    ((scan_catalytic c ts).map Prod.fst = ts)
    ∧ (∀ ec, ec ∈ ts →
        (∀ b, b ∈ splitCat [] c.data → findECs b = [] ∧ eco269Here b = false) →
        catGet (scan_catalytic c ts) ec = ⟨false, false, false⟩)
    ∧ (∀ ec, ec ∈ ts → catGet (scan_catalytic "" ts) ec = ⟨false, false, false⟩) := by
  refine ⟨?_, ?_, ?_⟩
  · rw [scan_catalytic_eq_map, List.map_map]
    have h2 : ∀ a ∈ ts, (Prod.fst ∘ fun ec =>
        (ec, if c.data.isEmpty then (⟨false, false, false⟩ : EvFlags)
          else (splitCat [] c.data).foldl (fun f b => blockStep b ec f)
            ⟨false, false, false⟩)) a = id a := fun a _ => rfl
    rw [List.map_congr_left h2, List.map_id]
  · intro ec hmem hb
    rw [catGet_scan c ts ec hmem]
    cases h : c.data.isEmpty
    · simp only [h, Bool.false_eq_true, if_false]
      have : ∀ (bs : List (List Char)) (z : EvFlags),
          (∀ b, b ∈ bs → findECs b = [] ∧ eco269Here b = false) →
          bs.foldl (fun f b => blockStep b ec f) z = z := by
        intro bs
        induction bs with
        | nil => intro z _; rfl
        | cons b rest ih =>
          intro z hs
          simp only [List.foldl_cons]
          rw [blockStep_inert b ec z (hs b (List.mem_cons_self b rest)).1
            (hs b (List.mem_cons_self b rest)).2]
          exact ih z (fun b2 h2 => hs b2 (List.mem_cons_of_mem b h2))
      exact this _ _ hb
    · simp [h]
  · intro ec hmem
    rw [catGet_scan "" ts ec hmem]
    rfl

theorem scan_catalytic_total_allfalse_witness :
    catGet (scan_catalytic "EC=;; garbage RHEA: ECO:123 CATALYTIC" ["1.1.1.1"]) "1.1.1.1"
      = ⟨false, false, false⟩ :=
  (scan_catalytic_total_allfalse "EC=;; garbage RHEA: ECO:123 CATALYTIC" ["1.1.1.1"]).2.1
    "1.1.1.1" (by decide) (by decide)

/-- C4: the high-confidence seed predicate holds exactly when the reaction id
and the specific evidence code are both present for the EC, or the record is
reviewed and at least one of the two markers is present for the EC. -/
theorem high_conf_for_ec_iff (row : Row) (ec : String) :
    high_conf_for_ec row ec = true ↔
      (((catGet (scan_catalytic (Row.get row "catalytic") [ec]) ec).rhea = true
          ∧ (catGet (scan_catalytic (Row.get row "catalytic") [ec]) ec).eco269 = true)
        ∨ (is_reviewed row = true
          ∧ ((catGet (scan_catalytic (Row.get row "catalytic") [ec]) ec).rhea = true
            ∨ (catGet (scan_catalytic (Row.get row "catalytic") [ec]) ec).eco269 = true))) := by
  simp only [high_conf_for_ec, Bool.or_eq_true, Bool.and_eq_true]
  tauto

/-- C7: the classifier returns skip exactly when the record's EC set does not
intersect the target set. -/
theorem assign_tier_skip_iff (row : Row) (ts : List String)
    (pe : List (String × List String)) (proxy : Bool) :
    assign_tier row ts pe proxy = "skip" ↔ interEcs row ts = [] := by
  cases h : (interEcs row ts).isEmpty
  · have hne : interEcs row ts ≠ [] := List.isEmpty_eq_false.mp h
    simp only [assign_tier, h, Bool.false_eq_true, if_false]
    constructor
    · intro hcontra
      split at hcontra
      · exact absurd hcontra (by decide)
      · split at hcontra
        · exact absurd hcontra (by decide)
        · exact absurd hcontra (by decide)
    · intro hcontra
      exact absurd hcontra hne
  · simp [assign_tier, h, List.isEmpty_iff.mp h]

end EnzGraph

namespace EnzGraph

theorem pfamLoop_spec (pfams : List String) (pe : List (String × List String)) :
    ∀ l : List String,
      pfamLoop pfams pe l =
        (l.any (fun tec => !(expGet pe tec).isEmpty
            && pfams.any (fun pf => (expGet pe tec).contains pf)),
         l.any (fun tec => !(expGet pe tec).isEmpty)) := by
  intro l
  induction l with
  | nil => rfl
  | cons tec rest ih =>
    simp only [pfamLoop, List.any_cons]
    cases hE : (expGet pe tec).isEmpty
    · cases hA : pfams.any (fun pf => (expGet pe tec).contains pf)
      · simp [hE, hA, ih]
      · simp [hE, hA]
    · simp [hE, ih]

theorem pfam_ok_bool (a b c : Bool) :
    (if !b then true else (if !a && c then true else a)) = (a || c || !b) := by
  cases a <;> cases b <;> cases c <;> rfl

theorem any_expected_match_iff (pfams : List String) (pe : List (String × List String))
    (l : List String) :
    (l.any (fun tec => !(expGet pe tec).isEmpty
        && pfams.any (fun pf => (expGet pe tec).contains pf)) = true)
    ↔ ∃ tec, tec ∈ l ∧ expGet pe tec ≠ [] ∧
        ∃ pf, pf ∈ pfams ∧ pf ∈ expGet pe tec := by
  rw [List.any_eq_true]
  constructor
  · rintro ⟨tec, hmem, hb⟩
    rw [Bool.and_eq_true] at hb
    obtain ⟨h1, h2⟩ := hb
    refine ⟨tec, hmem, by simpa using h1, ?_⟩
    rcases List.any_eq_true.mp h2 with ⟨pf, hpf, hc⟩
    exact ⟨pf, hpf, by simpa [List.contains, List.elem_iff] using hc⟩
  · rintro ⟨tec, hmem, h1, pf, hpf, hc⟩
    refine ⟨tec, hmem, ?_⟩
    rw [Bool.and_eq_true]
    exact ⟨by simpa using h1,
      List.any_eq_true.mpr ⟨pf, hpf, by simpa [List.contains, List.elem_iff] using hc⟩⟩

theorem any_expected_defined_false_iff (pe : List (String × List String))
    (l : List String) :
    ((l.any (fun tec => !(expGet pe tec).isEmpty)) = false)
    ↔ ∀ tec, tec ∈ l → expGet pe tec = [] := by
  rw [List.any_eq_false]
  constructor
  · intro h tec hm
    have h2 := h tec hm
    simpa [List.isEmpty_iff] using h2
  · intro h tec hm
    rw [h tec hm]
    simp

theorem pfam_ok_of_eq (row : Row) (target_ecs : List String)
    (pe : List (String × List String)) (proxy : Bool) :
    pfam_ok_of row target_ecs pe proxy =
      ((interEcs row target_ecs).any (fun tec => !(expGet pe tec).isEmpty
          && ((parse_semilist (Row.get row "pfam_list")).dedup).any
            (fun pf => (expGet pe tec).contains pf))
        || cazy_esther_ok row proxy
        || !((interEcs row target_ecs).any (fun tec => !(expGet pe tec).isEmpty))) := by
  unfold pfam_ok_of
  rw [pfamLoop_spec]
  exact pfam_ok_bool _ _ _

/-- C2: for a non-skipped record, pfam_ok holds exactly when some intersecting
EC has a non-empty expected set meeting the record's family ids, or the
CAZy/ESTHER fallback accepts the record, or no intersecting EC has a non-empty
expected set at all. -/
theorem pfam_ok_of_iff (row : Row) (target_ecs : List String)
    (pe : List (String × List String)) (proxy : Bool)
    (hnonskip : interEcs row target_ecs ≠ []) :
    pfam_ok_of row target_ecs pe proxy = true ↔
      ((∃ tec, tec ∈ interEcs row target_ecs ∧ expGet pe tec ≠ [] ∧
          ∃ pf, pf ∈ (parse_semilist (Row.get row "pfam_list")).dedup ∧ pf ∈ expGet pe tec)
        ∨ cazy_esther_ok row proxy = true
        ∨ (∀ tec, tec ∈ interEcs row target_ecs → expGet pe tec = [])) := by
  rw [pfam_ok_of_eq, Bool.or_eq_true, Bool.or_eq_true, Bool.not_eq_true',
    any_expected_match_iff, any_expected_defined_false_iff]
  exact or_assoc

theorem pfam_ok_of_iff_witness :
    pfam_ok_of [("ec_list", "1.1.1.1"), ("pfam_list", "PF1")] ["1.1.1.1"]
      [("1.1.1.1", ["PF1"])] true = true :=
  (pfam_ok_of_iff [("ec_list", "1.1.1.1"), ("pfam_list", "PF1")] ["1.1.1.1"]
      [("1.1.1.1", ["PF1"])] true (by decide)).mpr
    (Or.inl ⟨"1.1.1.1", by decide, by decide, "PF1", by decide, by decide⟩)

/-- C1 counterexample: a record whose EC set intersects the target set, where
the intersecting EC 2.2.2.2 has no learned expected set while the intersecting
EC 1.1.1.1 has a non-empty one that misses the record's (empty) family ids;
contrary to the claim, pfam_ok is false for this record. -/
theorem leniency_any_cex :
    interEcs [("ec_list", "1.1.1.1;2.2.2.2")] ["1.1.1.1", "2.2.2.2"] ≠ []
    ∧ "2.2.2.2" ∈ interEcs [("ec_list", "1.1.1.1;2.2.2.2")] ["1.1.1.1", "2.2.2.2"]
    ∧ expGet [("1.1.1.1", ["PF99999"])] "2.2.2.2" = []
    ∧ expGet [("1.1.1.1", ["PF99999"])] "1.1.1.1" ≠ []
    ∧ pfam_ok_of [("ec_list", "1.1.1.1;2.2.2.2")] ["1.1.1.1", "2.2.2.2"]
        [("1.1.1.1", ["PF99999"])] true = false := by
  decide

/-- C1 amended: the leniency rule fires only when NO intersecting EC has a
non-empty expected set; in that case pfam_ok is true for the record regardless
of its family ids. -/
theorem leniency_only_when_all_empty (row : Row) (ts : List String)
    (pe : List (String × List String)) (proxy : Bool)
    (h : ∀ tec, tec ∈ interEcs row ts → expGet pe tec = []) :
    pfam_ok_of row ts pe proxy = true := by
  rw [pfam_ok_of_eq]
  have hB : (interEcs row ts).any (fun tec => !(expGet pe tec).isEmpty) = false := by
    rw [List.any_eq_false]
    intro tec hmem
    rw [h tec hmem]
    simp
  rw [hB]
  simp

theorem leniency_only_when_all_empty_witness :
    pfam_ok_of [("ec_list", "1.1.1.1")] ["1.1.1.1"] [] true = true :=
  leniency_only_when_all_empty [("ec_list", "1.1.1.1")] ["1.1.1.1"] [] true (by decide)

/-- C5: every record classified gold also satisfies the silver requirements:
pfam_ok holds, and at least one of the silver disjuncts (reaction id for a
target EC, structural reference, evidence code anywhere, secreted with
evidence, reviewed) holds. -/
theorem gold_refines_silver (row : Row) (ts : List String)
    (pe : List (String × List String)) (proxy : Bool)
    (h : assign_tier row ts pe proxy = "gold") :
    pfam_ok_of row ts pe proxy = true ∧
      (has_rhea_target (Row.get row "catalytic") ts
        || !((parse_semilist (Row.get row "pdb_list")).dedup).isEmpty
        || eco_any269_target (Row.get row "catalytic") ts
        || has_secreted_eco269 (Row.get row "subcellular")
        || is_reviewed row) = true := by
  cases hI : (interEcs row ts).isEmpty
  · simp only [assign_tier, hI, Bool.false_eq_true, if_false] at h
    split at h
    case isTrue hg =>
      rw [Bool.and_eq_true, Bool.and_eq_true] at hg
      obtain ⟨⟨hpf, heco⟩, hor⟩ := hg
      refine ⟨hpf, ?_⟩
      simp only [Bool.or_eq_true] at hor ⊢
      tauto
    case isFalse hg =>
      split at h
      · exact absurd h (by decide)
      · exact absurd h (by decide)
  · simp only [assign_tier, hI, if_true] at h
    exact absurd h (by decide)

theorem gold_refines_silver_witness :
    pfam_ok_of [("ec_list", "3.1.1.74"), ("pfam_list", "PF01083"),
        ("reviewed", "reviewed"),
        ("catalytic", "CATALYTIC ACTIVITY: xxx EC=3.1.1.74 xxx RHEA:12345 xxx ECO:0000269")]
      ["3.1.1.74"] [] true = true ∧
    (has_rhea_target (Row.get [("ec_list", "3.1.1.74"), ("pfam_list", "PF01083"),
        ("reviewed", "reviewed"),
        ("catalytic", "CATALYTIC ACTIVITY: xxx EC=3.1.1.74 xxx RHEA:12345 xxx ECO:0000269")]
        "catalytic") ["3.1.1.74"]
      || !((parse_semilist (Row.get [("ec_list", "3.1.1.74"), ("pfam_list", "PF01083"),
          ("reviewed", "reviewed"),
          ("catalytic", "CATALYTIC ACTIVITY: xxx EC=3.1.1.74 xxx RHEA:12345 xxx ECO:0000269")]
          "pdb_list")).dedup).isEmpty
      || eco_any269_target (Row.get [("ec_list", "3.1.1.74"), ("pfam_list", "PF01083"),
          ("reviewed", "reviewed"),
          ("catalytic", "CATALYTIC ACTIVITY: xxx EC=3.1.1.74 xxx RHEA:12345 xxx ECO:0000269")]
          "catalytic") ["3.1.1.74"]
      || has_secreted_eco269 (Row.get [("ec_list", "3.1.1.74"), ("pfam_list", "PF01083"),
          ("reviewed", "reviewed"),
          ("catalytic", "CATALYTIC ACTIVITY: xxx EC=3.1.1.74 xxx RHEA:12345 xxx ECO:0000269")]
          "subcellular")
      || is_reviewed [("ec_list", "3.1.1.74"), ("pfam_list", "PF01083"),
          ("reviewed", "reviewed"),
          ("catalytic", "CATALYTIC ACTIVITY: xxx EC=3.1.1.74 xxx RHEA:12345 xxx ECO:0000269")]) = true :=
  gold_refines_silver [("ec_list", "3.1.1.74"), ("pfam_list", "PF01083"),
      ("reviewed", "reviewed"),
      ("catalytic", "CATALYTIC ACTIVITY: xxx EC=3.1.1.74 xxx RHEA:12345 xxx ECO:0000269")]
    ["3.1.1.74"] [] true (by decide)

theorem cazy_bool_shape (p a b e : Bool) :
    (a || (if p then b || e else b)) = ((a || b) || (p && e)) := by
  cases p <;> cases a <;> cases b <;> cases e <;> rfl

theorem cazy_esther_ok_eq (row : Row) (proxy : Bool) :
    cazy_esther_ok row proxy =
      (((cazyToks row).any (fun t => "GH".data.isPrefixOf t.data
          || "PL".data.isPrefixOf t.data
          || "CE".data.isPrefixOf t.data || "CBM".data.isPrefixOf t.data)
        || !(stripChars (Row.get row "xref_esther").data).isEmpty)
       || (proxy && esther_proxy row)) := by
  unfold cazy_esther_ok
  exact cazy_bool_shape proxy _ _ _

theorem cazy_any_iff (row : Row) :
    ((cazyToks row).any (fun t => "GH".data.isPrefixOf t.data
        || "PL".data.isPrefixOf t.data
        || "CE".data.isPrefixOf t.data || "CBM".data.isPrefixOf t.data) = true)
    ↔ ∃ t, t ∈ cazyToks row ∧ ("GH".data.isPrefixOf t.data = true
        ∨ "PL".data.isPrefixOf t.data = true
        ∨ "CE".data.isPrefixOf t.data = true
        ∨ "CBM".data.isPrefixOf t.data = true) := by
  rw [List.any_eq_true]
  constructor
  · rintro ⟨t, hm, hb⟩
    refine ⟨t, hm, ?_⟩
    simpa [Bool.or_eq_true, or_assoc] using hb
  · rintro ⟨t, hm, hd⟩
    refine ⟨t, hm, ?_⟩
    simpa [Bool.or_eq_true, or_assoc] using hd

theorem esther_proxy_iff (row : Row) :
    esther_proxy row = true ↔
      ("IPR029058" ∈ parse_semilist (Row.get row "interpro_list")
        ∨ "PF01083" ∈ parse_semilist (Row.get row "pfam_list")
        ∨ "PF12740" ∈ parse_semilist (Row.get row "pfam_list")) := by
  simp [esther_proxy, Bool.or_eq_true, List.contains, List.elem_iff,
    List.mem_dedup, or_assoc]

/-- C9: the fallback family-signal checker accepts a record exactly when some
normalized CAZy token starts with GH, PL, CE or CBM, or the ESTHER
cross-reference is non-empty after stripping, or proxy mode is enabled and the
record carries IPR029058, PF01083 or PF12740. -/
theorem cazy_esther_ok_iff (row : Row) (proxy : Bool) :
    cazy_esther_ok row proxy = true ↔
      ((∃ t, t ∈ cazyToks row ∧ ("GH".data.isPrefixOf t.data = true
          ∨ "PL".data.isPrefixOf t.data = true
          ∨ "CE".data.isPrefixOf t.data = true
          ∨ "CBM".data.isPrefixOf t.data = true))
        ∨ stripChars (Row.get row "xref_esther").data ≠ []
        ∨ (proxy = true
          ∧ ("IPR029058" ∈ parse_semilist (Row.get row "interpro_list")
            ∨ "PF01083" ∈ parse_semilist (Row.get row "pfam_list")
            ∨ "PF12740" ∈ parse_semilist (Row.get row "pfam_list")))) := by
  rw [cazy_esther_ok_eq, Bool.or_eq_true, Bool.or_eq_true, Bool.and_eq_true,
    cazy_any_iff, esther_proxy_iff, Bool.not_eq_true', List.isEmpty_eq_false]
  exact or_assoc

end EnzGraph

namespace EnzGraph

/-- C3: for a target EC with at least one seed contribution, a family id is in
the learned expected set exactly when its seed count meets the absolute
threshold and its exact fraction of the total seed contributions meets the
fractional threshold, both bounds inclusive, over the integers and rationals. -/
theorem derive_expected_mem_iff (rows : List Row) (ts : List String)
    (min_abs : Int) (min_frac : Rat) (ec pf : String)
    (hec : ec ∈ ts) (hne : seedsFor rows ts ec ≠ []) (habs : 1 ≤ min_abs) :
    pf ∈ expGet (derive_expected_pfams rows ts min_abs min_frac) ec ↔
      (min_abs ≤ ((seedsFor rows ts ec).count pf : Int)
        ∧ min_frac ≤ (((seedsFor rows ts ec).count pf : Rat)
            / ((seedsFor rows ts ec).length : Rat))) := by
  have hmap : derive_expected_pfams rows ts min_abs min_frac =
      ts.map (fun e => (e,
        if (seedsFor rows ts e).isEmpty then ([] : List String)
        else (seedsFor rows ts e).dedup.filter (fun q =>
          decide (min_abs ≤ ((seedsFor rows ts e).count q : Int))
            && decide (min_frac ≤ (((seedsFor rows ts e).count q : Rat)
                / ((seedsFor rows ts e).length : Rat)))))) := by
    unfold derive_expected_pfams
    apply List.map_congr_left
    intro e _
    by_cases h : (seedsFor rows ts e).isEmpty = true
    · simp [h]
    · simp [h]
  rw [hmap, expGet, alistGet_map_self _ _ ts ec hec]
  have hE : (seedsFor rows ts ec).isEmpty = false := by
    simpa [List.isEmpty_eq_false] using hne
  rw [hE]
  simp only [Bool.false_eq_true, if_false]
  rw [List.mem_filter]
  constructor
  · rintro ⟨hmemd, hp⟩
    rw [Bool.and_eq_true, decide_eq_true_eq, decide_eq_true_eq] at hp
    exact hp
  · intro hp
    refine ⟨?_, ?_⟩
    · rw [List.mem_dedup]
      have hcount : (1 : Int) ≤ ((seedsFor rows ts ec).count pf : Int) :=
        le_trans habs hp.1
      have hpos : 0 < (seedsFor rows ts ec).count pf := by exact_mod_cast hcount
      exact List.count_pos_iff.mp hpos
    · rw [Bool.and_eq_true, decide_eq_true_eq, decide_eq_true_eq]
      exact hp

theorem derive_expected_mem_iff_witness :
    (seedsFor [[("ec_list", "3.1.1.74"), ("pfam_list", "PF00001"), ("reviewed", "reviewed"), ("catalytic", "CATALYTIC ACTIVITY: EC=3.1.1.74; RHEA:1")],
      [("ec_list", "3.1.1.74"), ("pfam_list", "PF00001"), ("reviewed", "reviewed"), ("catalytic", "CATALYTIC ACTIVITY: EC=3.1.1.74; RHEA:1")]]
      ["3.1.1.74"] "3.1.1.74") ≠ [] ∧
    ("PF00001" ∈ expGet (derive_expected_pfams [[("ec_list", "3.1.1.74"), ("pfam_list", "PF00001"), ("reviewed", "reviewed"), ("catalytic", "CATALYTIC ACTIVITY: EC=3.1.1.74; RHEA:1")],
      [("ec_list", "3.1.1.74"), ("pfam_list", "PF00001"), ("reviewed", "reviewed"), ("catalytic", "CATALYTIC ACTIVITY: EC=3.1.1.74; RHEA:1")]]
        ["3.1.1.74"] 2 1) "3.1.1.74" ↔
      (2 ≤ ((seedsFor [[("ec_list", "3.1.1.74"), ("pfam_list", "PF00001"), ("reviewed", "reviewed"), ("catalytic", "CATALYTIC ACTIVITY: EC=3.1.1.74; RHEA:1")],
      [("ec_list", "3.1.1.74"), ("pfam_list", "PF00001"), ("reviewed", "reviewed"), ("catalytic", "CATALYTIC ACTIVITY: EC=3.1.1.74; RHEA:1")]]
      ["3.1.1.74"] "3.1.1.74").count "PF00001" : Int)
        ∧ (1 : Rat) ≤ (((seedsFor [[("ec_list", "3.1.1.74"), ("pfam_list", "PF00001"), ("reviewed", "reviewed"), ("catalytic", "CATALYTIC ACTIVITY: EC=3.1.1.74; RHEA:1")],
      [("ec_list", "3.1.1.74"), ("pfam_list", "PF00001"), ("reviewed", "reviewed"), ("catalytic", "CATALYTIC ACTIVITY: EC=3.1.1.74; RHEA:1")]]
      ["3.1.1.74"] "3.1.1.74").count "PF00001" : Rat)
            / ((seedsFor [[("ec_list", "3.1.1.74"), ("pfam_list", "PF00001"), ("reviewed", "reviewed"), ("catalytic", "CATALYTIC ACTIVITY: EC=3.1.1.74; RHEA:1")],
      [("ec_list", "3.1.1.74"), ("pfam_list", "PF00001"), ("reviewed", "reviewed"), ("catalytic", "CATALYTIC ACTIVITY: EC=3.1.1.74; RHEA:1")]]
      ["3.1.1.74"] "3.1.1.74").length : Rat)))) :=
  ⟨by decide, derive_expected_mem_iff [[("ec_list", "3.1.1.74"), ("pfam_list", "PF00001"), ("reviewed", "reviewed"), ("catalytic", "CATALYTIC ACTIVITY: EC=3.1.1.74; RHEA:1")],
      [("ec_list", "3.1.1.74"), ("pfam_list", "PF00001"), ("reviewed", "reviewed"), ("catalytic", "CATALYTIC ACTIVITY: EC=3.1.1.74; RHEA:1")]]
    ["3.1.1.74"] 2 1 "3.1.1.74" "PF00001" (by decide) (by decide) (by decide)⟩

/-- C6 counterexample: a table missing the required Pfam and Catalytic activity
columns is still processed and produces a per-record tier instead of failing. -/
theorem missing_column_not_fatal_cex :
    ("Pfam" ∉ ["Entry", "EC number"]) ∧ ("Catalytic activity" ∉ ["Entry", "EC number"]) ∧
    scoreTable ["Entry", "EC number"] [["A1", "3.1.1.74"]] ["3.1.1.74"] 2 (1/10) true
      = [("A1", "bronze")] := by
  decide

theorem row_get_missing (fieldnames : List String) (data : List (List String))
    (k : String)
    (h : ∀ hd, hd ∈ fieldnames → headerToInternal (normalize_header hd) ≠ k) :
    ∀ r, r ∈ read_with_header fieldnames data → Row.get r k = "" := by
  intro r hr
  rcases List.mem_map.mp hr with ⟨vals, hvals, rfl⟩
  unfold Row.get
  have hnone : (((fieldnames.zip vals).map
      (fun kv => (headerToInternal (normalize_header kv.1), kv.2))).reverse.find?
        (fun p => p.1 == k)) = none := by
    rw [List.find?_eq_none]
    intro p hp
    rw [List.mem_reverse] at hp
    rcases List.mem_map.mp hp with ⟨kv, hkv, rfl⟩
    have hmem := (List.of_mem_zip hkv).1
    simp [h kv.1 hmem]
  rw [hnone]
  rfl

/-- C6 amended: an absent required column is not fatal and produces no error;
records are processed with the missing field read as empty. In particular when
no column maps to the EC list, every record is classified skip and the output
table is empty, rather than the program aborting. -/
theorem missing_ec_column_processed (fieldnames : List String) (data : List (List String))
    (ts : List String) (min_abs : Int) (min_frac : Rat) (proxy : Bool)
    (h : ∀ hd, hd ∈ fieldnames → headerToInternal (normalize_header hd) ≠ "ec_list") :
    (∀ r, r ∈ read_with_header fieldnames data →
      assign_tier r ts (derive_expected_pfams (read_with_header fieldnames data)
        ts min_abs min_frac) proxy = "skip")
    ∧ scoreTable fieldnames data ts min_abs min_frac proxy = [] := by
  have hget := row_get_missing fieldnames data "ec_list" h
  have hskip : ∀ r, r ∈ read_with_header fieldnames data →
      assign_tier r ts (derive_expected_pfams (read_with_header fieldnames data)
        ts min_abs min_frac) proxy = "skip" := by
    intro r hr
    have hI : interEcs r ts = [] := by
      unfold interEcs
      rw [hget r hr]
      rfl
    simp [assign_tier, hI]
  refine ⟨hskip, ?_⟩
  simp only [scoreTable]
  rw [List.filterMap_eq_nil_iff]
  intro r hr
  rw [hskip r hr]
  rfl

theorem missing_ec_column_processed_witness :
    scoreTable ["Entry"] [["A1"]] ["1.1.1.1"] 2 1 true = [] :=
  (missing_ec_column_processed ["Entry"] [["A1"]] ["1.1.1.1"] 2 1 true (by decide)).2

end EnzGraph
